import Mathlib

/-
Verification of the session-derivation and work-attribution pipeline of
`wa_sesiones_a_timesheets.py` (with the twin segmentation code in
`exportar_whatsapp_odoo.py`).

The Python code is shallowly embedded:
* a row of the message DataFrame becomes the structure `Msg`;
* the pandas pipeline `sort_values` / `groupby.diff` / `gt` / `fillna(True)` /
  `cumsum` becomes `sortMsgs`, `breakFlags` and `cumsumFrom`;
* the weight computation of `main` (modes `equal` / `by_msgs` / `full`,
  including the `.replace(0, 1)` guard on the denominators) becomes `weight`;
* the Odoo ledger (`account.analytic.line`) becomes the structure `Ledger`,
  and `create_timesheet_if_needed` is translated line by line, with the
  `name ilike marker` domain member modelled as substring containment
  (the marker contains no SQL wildcard characters, and both the stored name
  and the query marker are produced by the same f-string constructors,
  so case folding plays no role);
* the fallible variants (`...E`) model the xmlrpc calls of the upsert loop
  in `main`, which has no exception handler around them.

Timestamps are rational numbers of seconds on the local timeline
(`fecha_local`); the pandas gap computation `diff().dt.total_seconds().div(60)`
is mirrored exactly. The float rounding of the displayed hour amount
(`round(..., 2)`) is presentation only and not modelled; no claim concerns it.
-/

namespace WaTs

/-- Raw `mail.message` row as read from the API, before the DataFrame
filters: `res_id` is the channel, `date` is the parsed timestamp
(`none` models a `NaT` from `errors="coerce"`), `author_id` is the
partner behind the message (`none` when the message has no author). -/
structure RawMsg where
  id : ℕ
  res_id : ℕ
  date : Option ℚ
  author_id : Option ℕ
  author_name : String
deriving DecidableEq

/-- Row of the per-day message DataFrame `df` built in
`build_sessions_from_messages` (after `dropna(subset=["fecha_utc"])`). -/
structure Msg where
  msg_id : ℕ
  channel_id : ℕ
  ts : ℚ
  autor_partner_id : Option ℕ
  autor : String
  es_operador : Bool
deriving DecidableEq

/-- Translation of one row append of the `for m in msgs` loop:
`es_operador` is `author_id[0] in internal_partner_ids` when the message
has an author and `False` otherwise; rows with unparsable dates are
dropped by the subsequent `dropna`. -/
def mkRow (internal : List ℕ) (m : RawMsg) : Option Msg :=
  match m.date with
  | none => none
  | some t =>
      some { msg_id := m.id
             channel_id := m.res_id
             ts := t
             autor_partner_id := m.author_id
             autor := m.author_name
             es_operador :=
               match m.author_id with
               | some a => internal.contains a
               | none => false }

/-- Ingestion: keep messages of known channels (`m.get("res_id") in ch_map`)
and drop rows whose timestamp did not parse. -/
def ingest (internal channels : List ℕ) (msgs : List RawMsg) : List Msg :=
  (msgs.filter (fun m => channels.contains m.res_id)).filterMap (mkRow internal)

/-- Sort key of `df.sort_values(["channel_id", "fecha_local"])`:
lexicographic on (channel, timestamp). -/
def msgLE (a b : Msg) : Prop :=
  a.channel_id < b.channel_id ∨ (a.channel_id = b.channel_id ∧ a.ts ≤ b.ts)

instance : DecidableRel msgLE := fun a b => by
  unfold msgLE; infer_instance

instance : IsTotal Msg msgLE := by
  constructor
  intro a b
  unfold msgLE
  rcases lt_trichotomy a.channel_id b.channel_id with h | h | h
  · exact Or.inl (Or.inl h)
  · rcases le_total a.ts b.ts with h2 | h2
    · exact Or.inl (Or.inr ⟨h, h2⟩)
    · exact Or.inr (Or.inr ⟨h.symm, h2⟩)
  · exact Or.inr (Or.inl h)

instance : IsTrans Msg msgLE := by
  constructor
  intro a b c hab hbc
  unfold msgLE at *
  rcases hab with h1 | ⟨h1, h1t⟩
  · rcases hbc with h2 | ⟨h2, _⟩
    · exact Or.inl (h1.trans h2)
    · exact Or.inl (h2 ▸ h1)
  · rcases hbc with h2 | ⟨h2, h2t⟩
    · exact Or.inl (h1 ▸ h2)
    · exact Or.inr ⟨h1.trans h2, h1t.trans h2t⟩

/-- The stable multi-column sort `df.sort_values(["channel_id", "fecha_local"])`
(pandas uses a stable lexicographic sort for a column list; insertion sort
is its stable counterpart here). -/
def sortMsgs (l : List Msg) : List Msg := List.insertionSort msgLE l

/-- Restriction of the DataFrame to one channel, in row order
(the `groupby("channel_id")` group). -/
def channelEvents (c : ℕ) (df : List Msg) : List Msg :=
  df.filter (fun e => e.channel_id == c)

/-- Session cut of the pandas expression
`diff().dt.total_seconds().div(60).gt(inactivity_minutes)`:
the gap in minutes between consecutive messages is strictly greater
than the threshold. -/
def sessionBreak (T : ℚ) (prev cur : Msg) : Bool :=
  decide (T < (cur.ts - prev.ts) / 60)

/-- Per-channel break column of
`diff().dt.total_seconds().div(60).gt(T).fillna(True)`: the first row of
a channel has `diff = NaT`, which `total_seconds()` turns into a float
`NaN`; `.gt(T)` on a float64 column returns a plain non-nullable bool
column in which the `NaN` comparison is already `False`, so the trailing
`.fillna(True)` finds no missing value and is a no-op. The first row of
each channel therefore carries break flag `False`; every later row
compares against its predecessor. -/
def breakFlags (T : ℚ) : List Msg → List Bool
  | [] => []
  | e :: rest => false :: List.zipWith (sessionBreak T) (e :: rest) rest

/-- Running sum of a boolean column starting from `acc`
(the pandas `cumsum()` on the break column). -/
def cumsumFrom (acc : ℕ) : List Bool → List ℕ
  | [] => []
  | b :: bs =>
      let acc2 := acc + (if b then 1 else 0)
      acc2 :: cumsumFrom acc2 bs

/-- Column `session_id = groupby("channel_id")["session_break"].cumsum()`
for one channel's ordered rows. Since the first break flag of a channel
is `False`, the per-channel ordinals start at 0. -/
def sessionIds (T : ℚ) (l : List Msg) : List ℕ :=
  cumsumFrom 0 (breakFlags T l)

/-- One channel's rows paired with their session ordinal. -/
def assignSessions (T : ℚ) (l : List Msg) : List (Msg × ℕ) :=
  l.zip (sessionIds T l)

@[simp] theorem length_cumsumFrom (bs : List Bool) :
    ∀ acc, (cumsumFrom acc bs).length = bs.length := by
  induction bs with
  | nil => intro acc; rfl
  | cons b bs ih => intro acc; simp [cumsumFrom, ih]

@[simp] theorem length_breakFlags (T : ℚ) (l : List Msg) :
    (breakFlags T l).length = l.length := by
  cases l with
  | nil => rfl
  | cons e rest => simp [breakFlags]

@[simp] theorem length_sessionIds (T : ℚ) (l : List Msg) :
    (sessionIds T l).length = l.length := by
  simp [sessionIds]

theorem cumsumFrom_succ (bs : List Bool) :
    ∀ (acc i : ℕ) (h : i + 1 < bs.length),
      (cumsumFrom acc bs).get ⟨i + 1, by simpa using h⟩ =
        (cumsumFrom acc bs).get ⟨i, by simp; omega⟩ +
          (if bs.get ⟨i + 1, h⟩ then 1 else 0) := by
  induction bs with
  | nil => intro acc i h; simp at h
  | cons b bs ih =>
    intro acc i h
    cases i with
    | zero =>
      cases bs with
      | nil => simp at h
      | cons b2 bs2 => simp [cumsumFrom]
    | succ j =>
      have hj : j + 1 < bs.length := by simpa using h
      simpa [cumsumFrom] using ih (acc + if b then 1 else 0) j hj

theorem breakFlags_get_zero (T : ℚ) (e : Msg) (rest : List Msg) :
    (breakFlags T (e :: rest)).get ⟨0, by simp⟩ = false := rfl

theorem breakFlags_get_succ (T : ℚ) (l : List Msg) (i : ℕ) (h : i + 1 < l.length) :
    (breakFlags T l).get ⟨i + 1, by simpa using h⟩ =
      sessionBreak T (l.get ⟨i, by omega⟩) (l.get ⟨i + 1, h⟩) := by
  cases l with
  | nil => simp at h
  | cons e rest =>
    have hr : i < rest.length := by simpa using h
    have hz : i < (List.zipWith (sessionBreak T) (e :: rest) rest).length := by
      simp; omega
    have : (breakFlags T (e :: rest)).get ⟨i + 1, by simpa using h⟩ =
        (List.zipWith (sessionBreak T) (e :: rest) rest).get ⟨i, hz⟩ := rfl
    rw [this]
    simp [List.get_eq_getElem, List.getElem_zipWith]

theorem sessionIds_get_zero (T : ℚ) (e : Msg) (rest : List Msg) :
    (sessionIds T (e :: rest)).get ⟨0, by simp⟩ = 0 := rfl

theorem sessionIds_get_succ (T : ℚ) (l : List Msg) (i : ℕ) (h : i + 1 < l.length) :
    (sessionIds T l).get ⟨i + 1, by simpa using h⟩ =
      (sessionIds T l).get ⟨i, by simp; omega⟩ +
        (if sessionBreak T (l.get ⟨i, by omega⟩) (l.get ⟨i + 1, h⟩) then 1 else 0) := by
  have hb : i + 1 < (breakFlags T l).length := by simpa using h
  have h1 := cumsumFrom_succ (breakFlags T l) 0 i hb
  have h2 := breakFlags_get_succ T l i h
  simp only [List.get_eq_getElem] at h1 h2 ⊢
  simp only [sessionIds]
  simp only [h2] at h1
  exact h1

theorem sessionIds_headq (T : ℚ) (e : Msg) (rest : List Msg) :
    (sessionIds T (e :: rest)).head? = some 0 := rfl

/-- Counterexample to C3 as stated: the first event of a channel does
not get session ordinal 1. On a one-message channel the break column is
`[False]` (the `fillna(True)` after `gt` is a no-op), so the cumsum
ordinal of the first event is 0. -/
theorem claim3_counterexample :
    (sessionIds 45 [⟨1, 7, 0, some 5, "a", false⟩]).head? = some 0 ∧
    (sessionIds 45 [⟨1, 7, 0, some 5, "a", false⟩]).head? ≠ some 1 := by
  decide

/-- C3 amended: in each channel's time-ordered sequence a new session
starts at event `i` (the running session ordinal increments) iff the gap
to the previous event is strictly more than `T` minutes; a gap of
exactly `T` keeps the session. The first event of a channel always
starts a session, but its ordinal is 0, not 1: `.gt()` already yields a
non-null `False` at the `NaN` first-of-channel diff, so the
`.fillna(True)` meant to seed the first break never fires. -/
theorem claim3_session_break_iff (T : ℚ) (l : List Msg) (i : ℕ)
    (h : i + 1 < l.length) :
    (sessionIds T l).head? = some 0 ∧
    ((sessionIds T l).get ⟨i + 1, by simpa using h⟩ =
        (sessionIds T l).get ⟨i, by simpa using Nat.lt_of_succ_lt h⟩ + 1 ↔
      T < ((l.get ⟨i + 1, h⟩).ts - (l.get ⟨i, Nat.lt_of_succ_lt h⟩).ts) / 60) ∧
    ((sessionIds T l).get ⟨i + 1, by simpa using h⟩ =
        (sessionIds T l).get ⟨i, by simpa using Nat.lt_of_succ_lt h⟩ ↔
      ¬ T < ((l.get ⟨i + 1, h⟩).ts - (l.get ⟨i, Nat.lt_of_succ_lt h⟩).ts) / 60) := by
  have hhead : (sessionIds T l).head? = some 0 := by
    cases l with
    | nil => simp at h
    | cons e rest => exact sessionIds_headq T e rest
  refine ⟨hhead, ?_, ?_⟩ <;>
    rw [sessionIds_get_succ T l i h] <;>
    by_cases hgap : T < ((l.get ⟨i + 1, h⟩).ts - (l.get ⟨i, Nat.lt_of_succ_lt h⟩).ts) / 60 <;>
    simp [sessionBreak, hgap]

/-- Witness for the amended C3 on a concrete two-message channel with a
46-minute gap and threshold 45: the second event's ordinal is the
first's plus one (a new session starts there). -/
theorem claim3_witness :
    (sessionIds 45 [⟨1, 7, 0, some 5, "a", false⟩, ⟨2, 7, 2760, some 6, "b", true⟩]).get
        ⟨1, by simp⟩ =
      (sessionIds 45 [⟨1, 7, 0, some 5, "a", false⟩, ⟨2, 7, 2760, some 6, "b", true⟩]).get
        ⟨0, by simp⟩ + 1 :=
  ((claim3_session_break_iff 45
      [⟨1, 7, 0, some 5, "a", false⟩, ⟨2, 7, 2760, some 6, "b", true⟩] 0 (by simp)).2.1).mpr
    (by norm_num [List.get])

/-- Counterexample to C4 as stated: the per-channel ordinal counter does
not start at 1. On a one-message channel the first (and only) ordinal is
0, because the first break flag is the non-null `False` that `gt`
produced from the `NaN` diff and `fillna(True)` cannot change it. -/
theorem claim4_counterexample :
    (sessionIds 45 [⟨9, 3, 0, none, "u", false⟩]).head? = some 0 ∧
    (sessionIds 45 [⟨9, 3, 0, none, "u", false⟩]).head? ≠ some 1 := by
  decide

/-- C4 amended: segmentation is an exact partition of the channel's rows
(before the qualifying filter): rows without a parsed timestamp are
dropped at ingestion, pairing the remaining rows with their session
ordinal keeps exactly the original rows (each row gets exactly one
ordinal), and the ordinal column is a per-channel running counter that
increments by one exactly at breaks — but it starts at 0, not 1, since
the `fillna(True)` seeding of the first break is a no-op after `gt`. -/
theorem claim4_partition (T : ℚ) (l : List Msg) :
    (∀ (internal : List ℕ) (m : RawMsg), m.date = none → mkRow internal m = none) ∧
    (assignSessions T l).map Prod.fst = l ∧
    (l ≠ [] → (sessionIds T l).head? = some 0) ∧
    (∀ (i : ℕ) (h : i + 1 < l.length),
      (sessionIds T l).get ⟨i + 1, by simpa using h⟩ =
        (sessionIds T l).get ⟨i, by simpa using Nat.lt_of_succ_lt h⟩ +
          (if sessionBreak T (l.get ⟨i, Nat.lt_of_succ_lt h⟩) (l.get ⟨i + 1, h⟩) then 1
           else 0)) := by
  refine ⟨?_, ?_, ?_, ?_⟩
  · intro internal m hm
    unfold mkRow
    rw [hm]
  · exact List.map_fst_zip l (sessionIds T l) (by simp)
  · intro hl
    cases l with
    | nil => exact absurd rfl hl
    | cons e rest => exact sessionIds_headq T e rest
  · intro i h
    exact sessionIds_get_succ T l i h

/-- Witness for the amended C4 on a concrete two-message channel: rows
without a timestamp are dropped, the zip keeps the rows, and the first
ordinal is 0. -/
theorem claim4_witness :
    mkRow [] ⟨1, 7, none, none, "x"⟩ = none ∧
    (assignSessions 45 [⟨1, 7, 0, some 5, "a", false⟩, ⟨2, 7, 2760, some 6, "b", true⟩]).map
        Prod.fst =
      [⟨1, 7, 0, some 5, "a", false⟩, ⟨2, 7, 2760, some 6, "b", true⟩] ∧
    (sessionIds 45 [⟨1, 7, 0, some 5, "a", false⟩, ⟨2, 7, 2760, some 6, "b", true⟩]).head? =
      some 0 := by
  have h := claim4_partition 45 [⟨1, 7, 0, some 5, "a", false⟩, ⟨2, 7, 2760, some 6, "b", true⟩]
  exact ⟨h.1 [] ⟨1, 7, none, none, "x"⟩ rfl, h.2.1, h.2.2.1 (by simp)⟩

/-- Member rows of one session of a channel (the `groupby(..., "session_id")`
group behind the `sessions` aggregate). -/
def sessionEvents (T : ℚ) (l : List Msg) (sid : ℕ) : List Msg :=
  ((assignSessions T l).filter (fun p => p.2 == sid)).map Prod.fst

/-- Aggregate column `msgs_user = int((~s).sum())` of a session. -/
def msgsUser (evs : List Msg) : ℕ := evs.countP (fun e => !e.es_operador)

/-- Aggregate column `msgs_oper = int(s.sum())` of a session. -/
def msgsOper (evs : List Msg) : ℕ := evs.countP (fun e => e.es_operador)

/-- Retention test of `sessions[(sessions["msgs_user"] > 0) & (sessions["msgs_oper"] > 0)]`. -/
def qualifies (evs : List Msg) : Bool :=
  decide (0 < msgsUser evs) && decide (0 < msgsOper evs)

/-- All session ordinals of a channel, in first-appearance order. -/
def sessionOrdinals (T : ℚ) (l : List Msg) : List ℕ := (sessionIds T l).dedup

/-- Session ordinals that survive the qualifying filter of the
`sessions` summary frame (`wa:216`). Note that only the summary is
filtered; the attribution plan below is built from the unfiltered
operator rows. -/
def qualifyingOrdinals (T : ℚ) (l : List Msg) : List ℕ :=
  (sessionOrdinals T l).filter (fun sid => qualifies (sessionEvents T l sid))

/-- Session duration column
`dur_min = (s.max() - s.min()).total_seconds() / 60` of the summary. -/
def durMin (evs : List Msg) : ℚ :=
  match evs.map (fun e => e.ts) with
  | [] => 0
  | t :: ts => (ts.foldl max t - ts.foldl min t) / 60

/-- The `ops_per_sess` keys of one channel: the distinct
(session ordinal, partner) pairs of the operator rows. This groupby runs
over the full `df`, not over the qualifying-filtered `sessions` frame
(rows without a partner key are dropped by the groupby). -/
def opsRows (T : ℚ) (l : List Msg) : List (ℕ × ℕ) :=
  (((assignSessions T l).filter (fun p => p.1.es_operador)).filterMap
    (fun p => p.1.autor_partner_id.map (fun a => (p.2, a)))).dedup

/-- The merged attribution plan of `main`:
`ops = ops_per_sess.merge(sessions[...], on=[channel, session], how="left")`
followed by `ops["dur_min"] = ...fillna(0.0)`. An operator row of a
non-qualifying session finds no match in the filtered summary, so its
duration comes back `NaN` and is filled to 0.0 — but the row itself is
kept and later fed to `create_timesheet_if_needed`. -/
def planRows (T : ℚ) (l : List Msg) : List (ℕ × ℕ × ℚ) :=
  (opsRows T l).map (fun p =>
    (p.1, p.2,
      if p.1 ∈ qualifyingOrdinals T l then durMin (sessionEvents T l p.1) else 0))

/-- Counterexample to C6 as stated: a channel whose only message is an
operator message forms the single-event session 0, which the qualifying
filter drops from the summary — yet the attribution plan still contains
its operator row (duration filled to 0), so the session is attributed,
not discarded. -/
theorem claim6_counterexample :
    planRows 45 [⟨1, 7, 0, some 5, "a", true⟩] = [(0, 5, 0)] ∧
    qualifies (sessionEvents 45 [⟨1, 7, 0, some 5, "a", true⟩] 0) = false := by
  decide

/-- C6 amended: the `sessions` summary drops every session lacking a
Requester-role event or a Responder-role event (in particular every
single-event session), but attribution does not consume that filter:
the plan is built from the unfiltered per-session operator rows and
left-merged with the filtered summary, so each operator row of a
non-qualifying session survives with its duration filled to 0 and still
produces an attribution record. Only sessions with no operator row at
all (e.g. a single Requester message) yield nothing, since plan rows
stem exclusively from operator rows. -/
theorem claim6_summary_filter_vs_plan (T : ℚ) (l : List Msg) (sid : ℕ) :
    (((∀ e ∈ sessionEvents T l sid, e.es_operador = true) ∨
        (∀ e ∈ sessionEvents T l sid, e.es_operador = false)) →
      sid ∉ qualifyingOrdinals T l) ∧
    ((sessionEvents T l sid).length = 1 → sid ∉ qualifyingOrdinals T l) ∧
    (∀ rp : ℕ, (sid, rp) ∈ opsRows T l → sid ∉ qualifyingOrdinals T l →
      (sid, rp, (0 : ℚ)) ∈ planRows T l) ∧
    (∀ (rp : ℕ) (d : ℚ), (sid, rp, d) ∈ planRows T l → (sid, rp) ∈ opsRows T l) := by
  have hkey : ∀ (h : (∀ e ∈ sessionEvents T l sid, e.es_operador = true) ∨
      (∀ e ∈ sessionEvents T l sid, e.es_operador = false)),
      sid ∉ qualifyingOrdinals T l := by
    intro h hmem
    have hq : qualifies (sessionEvents T l sid) = true :=
      (List.mem_filter.mp hmem).2
    rcases h with hall | hall
    · have hz : msgsUser (sessionEvents T l sid) = 0 := by
        apply List.countP_eq_zero.mpr
        intro e he
        simp [hall e he]
      rw [qualifies, hz] at hq
      simp at hq
    · have hz : msgsOper (sessionEvents T l sid) = 0 := by
        apply List.countP_eq_zero.mpr
        intro e he
        simp [hall e he]
      rw [qualifies, hz] at hq
      simp at hq
  refine ⟨hkey, ?_, ?_, ?_⟩
  · intro hlen
    obtain ⟨e, he⟩ := List.length_eq_one.mp hlen
    apply hkey
    cases hop : e.es_operador
    · right; intro x hx; rw [he] at hx; simp at hx; rw [hx, hop]
    · left; intro x hx; rw [he] at hx; simp at hx; rw [hx, hop]
  · intro rp hmem hnq
    unfold planRows
    have h2 := List.mem_map_of_mem
      (fun p : ℕ × ℕ => (p.1, p.2,
        if p.1 ∈ qualifyingOrdinals T l then durMin (sessionEvents T l p.1) else (0 : ℚ)))
      hmem
    simpa [hnq] using h2
  · intro rp d hmem
    unfold planRows at hmem
    obtain ⟨p, hp, heq⟩ := List.mem_map.mp hmem
    cases p with
    | mk s a =>
      simp only [Prod.mk.injEq] at heq
      obtain ⟨hs, ha, _⟩ := heq
      rw [← hs, ← ha]
      exact hp

/-- Witness for the amended C6: the one-operator-message channel; its
single-event session 0 is dropped from the summary yet its operator row
reaches the plan with duration 0. -/
theorem claim6_witness :
    ((0 : ℕ), (5 : ℕ), (0 : ℚ)) ∈ planRows 45 [⟨1, 7, 0, some 5, "a", true⟩] ∧
    (0 : ℕ) ∉ qualifyingOrdinals 45 [⟨1, 7, 0, some 5, "a", true⟩] := by
  have h := claim6_summary_filter_vs_plan 45 [⟨1, 7, 0, some 5, "a", true⟩] 0
  have hnq := h.2.1 (by decide)
  exact ⟨h.2.2.1 5 (by decide) hnq, hnq⟩

/-- Allocation policy of `--modo` (`by_activity` in the spec is the
`by_msgs` mode of the code). -/
inductive Mode
  | equal
  | by_msgs
  | full
deriving DecidableEq

/-- Pandas `.replace(0, 1)` guard on a denominator column. -/
def replace0 (n : ℕ) : ℕ := if n = 0 then 1 else n

/-- Responder partner ids of the session's operator rows, one entry per
operator message (the rows behind the `ops_per_sess` groupby; rows
without a partner key are dropped by the groupby, which cannot happen
for operator rows produced by ingestion). -/
def respMsgs (evs : List Msg) : List ℕ :=
  (evs.filter (fun e => e.es_operador)).filterMap (fun e => e.autor_partner_id)

/-- Distinct responders present in the session
(`transform("nunique")` counts these). -/
def responders (evs : List Msg) : List ℕ := (respMsgs evs).dedup

/-- Column `msgs_oper` of the `ops_per_sess` row of one responder. -/
def msgsOperOf (evs : List Msg) (rp : ℕ) : ℕ := (respMsgs evs).count rp

/-- Column `tot_by_sess = transform("sum")` of `msgs_oper` over the session. -/
def totBySess (evs : List Msg) : ℕ :=
  ((responders evs).map (msgsOperOf evs)).sum

/-- Column `n_ops = transform("nunique")` of `autor_partner_id`. -/
def nOps (evs : List Msg) : ℕ := (responders evs).length

/-- Weight column of `main`: `by_msgs` divides the responder's message
count by the session total, `full` credits 1.0, `equal` divides 1.0 by
the number of distinct responders; both denominators carry the
`.replace(0, 1)` guard. -/
def weight (mode : Mode) (evs : List Msg) (rp : ℕ) : ℚ :=
  match mode with
  | .by_msgs => (msgsOperOf evs rp : ℚ) / (replace0 (totBySess evs) : ℚ)
  | .full => 1
  | .equal => 1 / (replace0 (nOps evs) : ℚ)

theorem sum_map_div (xs : List ℕ) (f : ℕ → ℚ) (c : ℚ) :
    (xs.map (fun x => f x / c)).sum = (xs.map f).sum / c := by
  induction xs with
  | nil => simp
  | cons x xs ih => simp [ih, add_div]

theorem sum_map_natCast (xs : List ℕ) (f : ℕ → ℕ) :
    (xs.map (fun x => ((f x : ℕ) : ℚ))).sum = ((xs.map f).sum : ℚ) := by
  induction xs with
  | nil => simp
  | cons x xs ih => simp [ih]

/-- C5: weight laws of the three allocation policies on a session whose
operator rows all carry a partner id (which ingestion guarantees) and
which has at least one operator message (which the qualifying filter
guarantees): `equal` gives each distinct responder `1 / n` and the
weights sum to 1, `by_msgs` gives each responder their message share and
the weights sum to 1, `full` gives every responder exactly 1. -/
theorem claim5_weights (evs : List Msg)
    (hwf : ∀ e ∈ evs, e.es_operador = true → e.autor_partner_id.isSome = true)
    (hop : 0 < msgsOper evs) :
    ((∀ rp ∈ responders evs, weight Mode.equal evs rp = 1 / (nOps evs : ℚ)) ∧
      ((responders evs).map (weight Mode.equal evs)).sum = 1) ∧
    ((∀ rp ∈ responders evs,
        weight Mode.by_msgs evs rp = (msgsOperOf evs rp : ℚ) / (totBySess evs : ℚ)) ∧
      ((responders evs).map (weight Mode.by_msgs evs)).sum = 1) ∧
    (∀ rp ∈ responders evs, weight Mode.full evs rp = 1) := by
  obtain ⟨e, he, hoe⟩ := List.countP_pos_iff.mp hop
  obtain ⟨rp0, hrp0⟩ := Option.isSome_iff_exists.mp (hwf e he hoe)
  have hmem : rp0 ∈ respMsgs evs :=
    List.mem_filterMap.mpr ⟨e, List.mem_filter.mpr ⟨he, hoe⟩, hrp0⟩
  have hlen : 0 < (respMsgs evs).length :=
    List.length_pos.mpr (List.ne_nil_of_mem hmem)
  have hn0 : nOps evs ≠ 0 := by
    have : rp0 ∈ responders evs := List.mem_dedup.mpr hmem
    have := List.length_pos.mpr (List.ne_nil_of_mem this)
    unfold nOps
    omega
  have htot : totBySess evs = (respMsgs evs).length := by
    simpa [totBySess, responders, msgsOperOf] using
      List.sum_map_count_dedup_eq_length (respMsgs evs)
  have htot0 : totBySess evs ≠ 0 := by omega
  have hrn : replace0 (nOps evs) = nOps evs := by simp [replace0, hn0]
  have hrt : replace0 (totBySess evs) = totBySess evs := by simp [replace0, htot0]
  have hcastn : ((nOps evs : ℚ)) ≠ 0 := Nat.cast_ne_zero.mpr hn0
  have hcastt : ((totBySess evs : ℚ)) ≠ 0 := Nat.cast_ne_zero.mpr htot0
  refine ⟨⟨?_, ?_⟩, ⟨?_, ?_⟩, ?_⟩
  · intro rp _
    simp [weight, hrn]
  · have hmap : (responders evs).map (weight Mode.equal evs) =
        List.replicate (nOps evs) (1 / (nOps evs : ℚ)) := by
      rw [show (weight Mode.equal evs) = fun _ => 1 / (nOps evs : ℚ) by
        funext rp; simp [weight, hrn]]
      rw [List.map_const']
      rfl
    rw [hmap, List.sum_replicate, nsmul_eq_mul]
    field_simp
  · intro rp _
    simp [weight, hrt]
  · have hmap : (responders evs).map (weight Mode.by_msgs evs) =
        (responders evs).map (fun rp => (msgsOperOf evs rp : ℚ) / (totBySess evs : ℚ)) := by
      apply List.map_congr_left
      intro rp _
      simp [weight, hrt]
    rw [hmap, sum_map_div, sum_map_natCast]
    rw [show ((responders evs).map (msgsOperOf evs)).sum = totBySess evs from rfl]
    exact div_self hcastt
  · intro rp _
    simp [weight]

/-- Witness for C5: session with one requester message and three operator
messages by two responders (partner 5 twice, partner 6 once). -/
theorem claim5_witness :
    ((responders [⟨1, 7, 0, some 9, "u", false⟩, ⟨2, 7, 1, some 5, "a", true⟩,
        ⟨3, 7, 2, some 5, "a", true⟩, ⟨4, 7, 3, some 6, "b", true⟩]).map
      (weight Mode.equal [⟨1, 7, 0, some 9, "u", false⟩, ⟨2, 7, 1, some 5, "a", true⟩,
        ⟨3, 7, 2, some 5, "a", true⟩, ⟨4, 7, 3, some 6, "b", true⟩])).sum = 1 ∧
    ((responders [⟨1, 7, 0, some 9, "u", false⟩, ⟨2, 7, 1, some 5, "a", true⟩,
        ⟨3, 7, 2, some 5, "a", true⟩, ⟨4, 7, 3, some 6, "b", true⟩]).map
      (weight Mode.by_msgs [⟨1, 7, 0, some 9, "u", false⟩, ⟨2, 7, 1, some 5, "a", true⟩,
        ⟨3, 7, 2, some 5, "a", true⟩, ⟨4, 7, 3, some 6, "b", true⟩])).sum = 1 := by
  have h := claim5_weights [⟨1, 7, 0, some 9, "u", false⟩, ⟨2, 7, 1, some 5, "a", true⟩,
    ⟨3, 7, 2, some 5, "a", true⟩, ⟨4, 7, 3, some 6, "b", true⟩] (by decide) (by decide)
  exact ⟨h.1.2, h.2.1.2⟩

/-- C9: an authorless message is classified as a Requester-role row
(`es_operador = False`); one responder message plus one requester-role
message make a session qualify; and every responder that the attribution
stage sees comes from a message that had an author. -/
theorem claim9_authorless_requester :
    (∀ (internal : List ℕ) (m : RawMsg) (msg : Msg),
      m.author_id = none → mkRow internal m = some msg → msg.es_operador = false) ∧
    (∀ e1 e2 : Msg, e1.es_operador = true → e2.es_operador = false →
      qualifies [e1, e2] = true) ∧
    (∀ (evs : List Msg) (rp : ℕ), rp ∈ responders evs →
      ∃ e ∈ evs, e.es_operador = true ∧ e.autor_partner_id = some rp) := by
  refine ⟨?_, ?_, ?_⟩
  · intro internal m msg hauth hmk
    unfold mkRow at hmk
    cases hd : m.date with
    | none => rw [hd] at hmk; exact absurd hmk (by simp)
    | some t =>
      rw [hd, hauth] at hmk
      have := Option.some.inj hmk
      rw [← this]
  · intro e1 e2 h1 h2
    simp [qualifies, msgsUser, msgsOper, List.countP_cons, h1, h2]
  · intro evs rp hrp
    have hmem : rp ∈ respMsgs evs := List.mem_dedup.mp hrp
    obtain ⟨e, hef, heq⟩ := List.mem_filterMap.mp hmem
    have := List.mem_filter.mp hef
    exact ⟨e, this.1, this.2, heq⟩

theorem stable_filter_sortMsgs (l : List Msg) (p : Msg → Bool)
    (hpw : (l.filter p).Pairwise msgLE) :
    (sortMsgs l).filter p = l.filter p := by
  have h1 : List.Sublist (l.filter p) (sortMsgs l) :=
    List.sublist_insertionSort hpw (List.filter_sublist l)
  have hself : (l.filter p).filter p = l.filter p :=
    List.filter_eq_self.mpr (fun a ha => List.of_mem_filter ha)
  have h2 : List.Sublist (l.filter p) ((sortMsgs l).filter p) := by
    have := h1.filter p
    rwa [hself] at this
  have hlen : ((sortMsgs l).filter p).length = (l.filter p).length := by
    rw [← List.countP_eq_length_filter, ← List.countP_eq_length_filter]
    exact (List.perm_insertionSort msgLE l).countP_eq p
  exact (h2.eq_of_length hlen.symm).symm

/-- C8: after ingestion and the stable lexicographic sort, every
channel's event list is non-decreasing in timestamp, and events of one
channel sharing an exact timestamp keep the relative order they had
before sorting (stability). -/
theorem claim8_sorted_stable (internal channels : List ℕ) (msgs : List RawMsg)
    (c : ℕ) (t : ℚ) :
    (channelEvents c (sortMsgs (ingest internal channels msgs))).Pairwise
      (fun a b => a.ts ≤ b.ts) ∧
    (channelEvents c (sortMsgs (ingest internal channels msgs))).filter
        (fun e => e.ts == t) =
      (channelEvents c (ingest internal channels msgs)).filter (fun e => e.ts == t) := by
  constructor
  · have hsorted : (sortMsgs (ingest internal channels msgs)).Pairwise msgLE :=
      List.sorted_insertionSort msgLE (ingest internal channels msgs)
    have hpair : (channelEvents c (sortMsgs (ingest internal channels msgs))).Pairwise
        msgLE :=
      hsorted.sublist (List.filter_sublist _)
    refine hpair.imp_of_mem ?_
    intro a b ha hb hab
    have hac : a.channel_id = c := by simpa using (List.mem_filter.mp ha).2
    have hbc : b.channel_id = c := by simpa using (List.mem_filter.mp hb).2
    rcases hab with hlt | ⟨_, hle⟩
    · rw [hac, hbc] at hlt
      exact absurd hlt (lt_irrefl c)
    · exact hle
  · show (List.filter _ (List.filter _ _)) = List.filter _ (List.filter _ _)
    rw [List.filter_filter, List.filter_filter]
    apply stable_filter_sortMsgs
    apply List.pairwise_of_forall_mem_list
    intro a ha b hb
    have ha2 := (List.mem_filter.mp ha).2
    have hb2 := (List.mem_filter.mp hb).2
    simp only [Bool.and_eq_true, beq_iff_eq] at ha2 hb2
    exact Or.inr ⟨ha2.2.trans hb2.2.symm, le_of_eq (ha2.1.trans hb2.1.symm)⟩

/-- Witness for C9: a concrete authorless raw message becomes a
requester-role row, and paired with an operator row the session
qualifies. -/
theorem claim9_witness :
    (⟨1, 7, (0 : ℚ), none, "x", false⟩ : Msg).es_operador = false ∧
    qualifies [⟨2, 7, 1, some 5, "a", true⟩, ⟨1, 7, 0, none, "x", false⟩] = true := by
  constructor
  · exact claim9_authorless_requester.1 [] ⟨1, 7, some 0, none, "x"⟩
      ⟨1, 7, 0, none, "x", false⟩ rfl rfl
  · exact claim9_authorless_requester.2.1 ⟨2, 7, 1, some 5, "a", true⟩
      ⟨1, 7, 0, none, "x", false⟩ rfl rfl

/-- Character-list test that `pat` begins the given list. -/
def startsWithChars : List Char → List Char → Bool
  | [], _ => true
  | _ :: _, [] => false
  | p :: ps, c :: cs => p == c && startsWithChars ps cs

/-- Character-list test that `pat` occurs contiguously in the list. -/
def hasSubChars (pat : List Char) : List Char → Bool
  | [] => pat.isEmpty
  | c :: cs => startsWithChars pat (c :: cs) || hasSubChars pat cs

/-- Substring containment on strings. The Odoo domain operator `ilike`
is modelled by plain containment: the marker `[WA[c/s]@p]` holds no SQL
wildcard, and the stored name and the query marker come from the same
f-string constructors, so case folding cannot distinguish them. -/
def strContainsStr (s pat : String) : Bool := hasSubChars pat.data s.data

/-- Stored `account.analytic.line` record. -/
structure AALine where
  id : ℕ
  name : String
  date : String
  unit_amount : ℚ
  project_id : ℕ
  employee_id : ℕ
deriving DecidableEq

/-- Payload `line_vals` passed to `create_timesheet_if_needed`. -/
structure LineVals where
  name : String
  date : String
  unit_amount : ℚ
  project_id : ℕ
  employee_id : ℕ
deriving DecidableEq

/-- The external ledger: the stored analytic lines plus the id the next
`create` call will assign. -/
structure Ledger where
  lines : List AALine
  nextId : ℕ
deriving DecidableEq

/-- The search domain of `create_timesheet_if_needed`:
`name ilike marker` and exact match on date, project and employee. -/
def matchesDom (marker date : String) (proj emp : ℕ) (r : AALine) : Bool :=
  strContainsStr r.name marker && r.date == date && r.project_id == proj &&
    r.employee_id == emp

/-- The `search(..., limit=1)` call with the default order `id asc`:
the lowest id among the matching records, if any. -/
def searchLedger (L : Ledger) (marker date : String) (proj emp : ℕ) : Option ℕ :=
  ((L.lines.filter (matchesDom marker date proj emp)).map (fun r => r.id)).min?

/-- Record built by the ledger's `create` from a payload. -/
def newLine (nid : ℕ) (v : LineVals) : AALine :=
  { id := nid, name := v.name, date := v.date, unit_amount := v.unit_amount,
    project_id := v.project_id, employee_id := v.employee_id }

/-- The ledger's `create` call: append the record under a fresh id. -/
def insertLine (L : Ledger) (v : LineVals) : Ledger × ℕ :=
  ({ lines := L.lines ++ [newLine L.nextId v], nextId := L.nextId + 1 }, L.nextId)

/-- Translation of `create_timesheet_if_needed`: search by marker, date,
project, employee; if found and not `recreate`, return the existing id
with `created = False`; if found and `recreate`, unlink the found record
and create anew; if not found, create. -/
def create_timesheet_if_needed (L : Ledger) (line_vals : LineVals) (signature : String)
    (recreate : Bool) : Ledger × ℕ × Bool :=
  match searchLedger L ("[" ++ signature ++ "]") line_vals.date line_vals.project_id
      line_vals.employee_id with
  | some eid =>
      if recreate then
        let L2 : Ledger := { L with lines := L.lines.filter (fun r => r.id != eid) }
        let ins := insertLine L2 line_vals
        (ins.1, ins.2, true)
      else
        (L, eid, false)
  | none =>
      let ins := insertLine L line_vals
      (ins.1, ins.2, true)

/-- One row of the `ops` plan of `main` after the employee mapping:
everything `main` feeds into the signature, the name and the payload. -/
structure AttrRecord where
  channel_id : ℕ
  session_id : ℕ
  partner_id : ℕ
  canal : String
  autor : String
  time_span : String
  date_local : String
  employee_id : ℕ
  horas_asignadas : ℚ
deriving DecidableEq

/-- Signature f-string `WA[{channel_id}/{session_id}]@{partner_id}`. -/
def mkSignature (r : AttrRecord) : String :=
  "WA[" ++ toString r.channel_id ++ "/" ++ toString r.session_id ++ "]@" ++
    toString r.partner_id

/-- Name f-string
`WhatsApp {canal} ({time_span}) - {autor} [{signature}]`. -/
def mkName (r : AttrRecord) : String :=
  ("WhatsApp " ++ r.canal ++ " (" ++ r.time_span ++ ") - " ++ r.autor ++ " ") ++
    ("[" ++ mkSignature r ++ "]")

/-- The `line_vals` dict of `main` for one attribution record (the float
rounding of the hour amount is presentation only and kept exact here). -/
def mkLineVals (project_id : ℕ) (r : AttrRecord) : LineVals :=
  { name := mkName r, date := r.date_local, unit_amount := r.horas_asignadas,
    project_id := project_id, employee_id := r.employee_id }

/-- The non-dry-run upsert loop of `main` over the attribution plan,
returning the final ledger plus the (id, created) result per record. -/
def runAll (proj : ℕ) (recreate : Bool) : Ledger → List AttrRecord →
    Ledger × List (ℕ × Bool)
  | L, [] => (L, [])
  | L, r :: rs =>
      let step := create_timesheet_if_needed L (mkLineVals proj r) (mkSignature r) recreate
      let rest := runAll proj recreate step.1 rs
      (rest.1, (step.2.1, step.2.2) :: rest.2)

theorem startsWithChars_self : ∀ xs : List Char, startsWithChars xs xs = true
  | [] => rfl
  | x :: xs => by simp [startsWithChars, startsWithChars_self xs]

theorem hasSubChars_append (s pat : List Char) : hasSubChars pat (s ++ pat) = true := by
  induction s with
  | nil =>
    cases pat with
    | nil => rfl
    | cons p ps => simp [hasSubChars, startsWithChars_self]
  | cons c s ih => simp [hasSubChars, ih]

theorem strContains_append (a b : String) : strContainsStr (a ++ b) b = true := by
  unfold strContainsStr
  rw [String.data_append]
  exact hasSubChars_append a.data b.data

theorem mkName_contains_marker (r : AttrRecord) :
    strContainsStr (mkName r) ("[" ++ mkSignature r ++ "]") = true :=
  strContains_append _ _

theorem searchLedger_eq_none_iff (L : Ledger) (marker date : String) (proj emp : ℕ) :
    searchLedger L marker date proj emp = none ↔
      ∀ r ∈ L.lines, matchesDom marker date proj emp r = false := by
  unfold searchLedger
  rw [List.min?_eq_none_iff]
  simp [List.filter_eq_nil_iff]

theorem searchLedger_eq_some (L : Ledger) (marker date : String) (proj emp eid : ℕ)
    (h : searchLedger L marker date proj emp = some eid) :
    ∃ r ∈ L.lines, matchesDom marker date proj emp r = true ∧ r.id = eid := by
  unfold searchLedger at h
  have hmem : eid ∈ (L.lines.filter (matchesDom marker date proj emp)).map
      (fun r => r.id) :=
    List.min?_mem (fun a b => by omega) h
  obtain ⟨r, hrf, hrid⟩ := List.mem_map.mp hmem
  have hm := List.mem_filter.mp hrf
  exact ⟨r, hm.1, hm.2, hrid⟩

theorem searchLedger_ne_none (L : Ledger) (marker date : String) (proj emp : ℕ)
    (h : ∃ r ∈ L.lines, matchesDom marker date proj emp r = true) :
    searchLedger L marker date proj emp ≠ none := by
  intro hn
  obtain ⟨r, hr, hm⟩ := h
  have := (searchLedger_eq_none_iff L marker date proj emp).mp hn r hr
  rw [hm] at this
  cases this

theorem create_skip (L : Ledger) (v : LineVals) (s : String) (eid : ℕ)
    (h : searchLedger L ("[" ++ s ++ "]") v.date v.project_id v.employee_id = some eid) :
    create_timesheet_if_needed L v s false = (L, eid, false) := by
  unfold create_timesheet_if_needed
  rw [h]
  rfl

theorem create_mem_mono (L : Ledger) (v : LineVals) (s : String) (x : AALine)
    (hx : x ∈ L.lines) :
    x ∈ (create_timesheet_if_needed L v s false).1.lines := by
  unfold create_timesheet_if_needed
  cases hs : searchLedger L ("[" ++ s ++ "]") v.date v.project_id v.employee_id with
  | some eid => exact hx
  | none => simp [insertLine]; exact Or.inl hx

theorem create_exists_match (L : Ledger) (v : LineVals) (s : String)
    (hname : strContainsStr v.name ("[" ++ s ++ "]") = true) :
    ∃ x ∈ (create_timesheet_if_needed L v s false).1.lines,
      matchesDom ("[" ++ s ++ "]") v.date v.project_id v.employee_id x = true := by
  cases hs : searchLedger L ("[" ++ s ++ "]") v.date v.project_id v.employee_id with
  | some eid =>
    obtain ⟨r, hr, hm, _⟩ := searchLedger_eq_some L _ _ _ _ _ hs
    rw [create_skip L v s eid hs]
    exact ⟨r, hr, hm⟩
  | none =>
    refine ⟨newLine L.nextId v, ?_, ?_⟩
    · unfold create_timesheet_if_needed
      rw [hs]
      simp [insertLine]
    · simp [matchesDom, newLine, hname]

theorem runAll_mem_mono (proj : ℕ) (rs : List AttrRecord) :
    ∀ (L : Ledger) (x : AALine), x ∈ L.lines → x ∈ (runAll proj false L rs).1.lines := by
  induction rs with
  | nil => intro L x hx; exact hx
  | cons r rs ih =>
    intro L x hx
    exact ih _ x (create_mem_mono L _ _ x hx)

theorem runAll_exists_match (proj : ℕ) (rs : List AttrRecord) :
    ∀ (L : Ledger), ∀ r ∈ rs,
      ∃ x ∈ (runAll proj false L rs).1.lines,
        matchesDom ("[" ++ mkSignature r ++ "]") (mkLineVals proj r).date
          (mkLineVals proj r).project_id (mkLineVals proj r).employee_id x = true := by
  induction rs with
  | nil => intro L r hr; cases hr
  | cons r0 rs ih =>
    intro L r hr
    rcases List.mem_cons.mp hr with rfl | hr2
    · obtain ⟨x, hx, hm⟩ := create_exists_match L (mkLineVals proj r) (mkSignature r)
        (mkName_contains_marker r)
      exact ⟨x, runAll_mem_mono proj rs _ x hx, hm⟩
    · exact ih _ r hr2

theorem runAll_noop (proj : ℕ) (rs : List AttrRecord) :
    ∀ (L : Ledger),
      (∀ r ∈ rs, ∃ x ∈ L.lines,
        matchesDom ("[" ++ mkSignature r ++ "]") (mkLineVals proj r).date
          (mkLineVals proj r).project_id (mkLineVals proj r).employee_id x = true) →
      (runAll proj false L rs).1 = L ∧
        ∀ o ∈ (runAll proj false L rs).2, o.2 = false := by
  induction rs with
  | nil => intro L _; exact ⟨rfl, by intro o ho; cases ho⟩
  | cons r0 rs ih =>
    intro L h
    have hne := searchLedger_ne_none L ("[" ++ mkSignature r0 ++ "]")
      (mkLineVals proj r0).date (mkLineVals proj r0).project_id
      (mkLineVals proj r0).employee_id (h r0 (List.mem_cons_self r0 rs))
    obtain ⟨eid, heid⟩ := Option.ne_none_iff_exists'.mp hne
    have hstep := create_skip L (mkLineVals proj r0) (mkSignature r0) eid heid
    have hrest := ih L (fun r hr => h r (List.mem_cons_of_mem r0 hr))
    show ((runAll proj false _ (r0 :: rs)).1 = L ∧ _)
    unfold runAll
    rw [hstep]
    refine ⟨hrest.1, ?_⟩
    intro o ho
    rcases List.mem_cons.mp ho with rfl | ho2
    · rfl
    · exact hrest.2 o ho2

/-- C1: re-running the upsert loop with `recreate = False` over the same
attribution plan leaves the ledger unchanged and every record reports
`created = False` (so the second run performs no insert and no delete). -/
theorem claim1_idempotent (proj : ℕ) (L0 : Ledger) (records : List AttrRecord) :
    (runAll proj false (runAll proj false L0 records).1 records).1 =
      (runAll proj false L0 records).1 ∧
    ∀ o ∈ (runAll proj false (runAll proj false L0 records).1 records).2,
      o.2 = false := by
  apply runAll_noop
  intro r hr
  exact runAll_exists_match proj records L0 r hr

/-- C2: the upsert constructs the signature `WA[channel/session]@partner`,
matches ledger records on marker containment in the name plus exact date,
project and employee, and then: inserts when nothing matches, skips with
`created = False` when a match exists and `recreate` is off, and deletes
the selected match before inserting when `recreate` is on. -/
theorem claim2_upsert (L : Ledger) (v : LineVals) (s : String) :
    (∀ r : AttrRecord, mkSignature r = "WA[" ++ toString r.channel_id ++ "/" ++
      toString r.session_id ++ "]@" ++ toString r.partner_id) ∧
    (∀ recreate : Bool, (∀ x ∈ L.lines,
        matchesDom ("[" ++ s ++ "]") v.date v.project_id v.employee_id x = false) →
      (create_timesheet_if_needed L v s recreate).1.lines =
          L.lines ++ [newLine L.nextId v] ∧
        (create_timesheet_if_needed L v s recreate).2.2 = true) ∧
    ((∃ x ∈ L.lines, matchesDom ("[" ++ s ++ "]") v.date v.project_id v.employee_id x
        = true) →
      (create_timesheet_if_needed L v s false).1 = L ∧
        (create_timesheet_if_needed L v s false).2.2 = false ∧
        ∃ x ∈ L.lines, matchesDom ("[" ++ s ++ "]") v.date v.project_id v.employee_id x
            = true ∧ x.id = (create_timesheet_if_needed L v s false).2.1) ∧
    ((∃ x ∈ L.lines, matchesDom ("[" ++ s ++ "]") v.date v.project_id v.employee_id x
        = true) →
      ∃ eid, searchLedger L ("[" ++ s ++ "]") v.date v.project_id v.employee_id =
          some eid ∧
        (create_timesheet_if_needed L v s true).1.lines =
          (L.lines.filter (fun x => x.id != eid)) ++ [newLine L.nextId v] ∧
        (create_timesheet_if_needed L v s true).2.2 = true) := by
  refine ⟨fun r => rfl, ?_, ?_, ?_⟩
  · intro recreate hnone
    have hs : searchLedger L ("[" ++ s ++ "]") v.date v.project_id v.employee_id =
        none := (searchLedger_eq_none_iff L _ _ _ _).mpr hnone
    unfold create_timesheet_if_needed
    rw [hs]
    simp [insertLine]
  · intro hex
    obtain ⟨eid, heid⟩ := Option.ne_none_iff_exists'.mp
      (searchLedger_ne_none L _ _ _ _ hex)
    rw [create_skip L v s eid heid]
    obtain ⟨x, hx, hm, hid⟩ := searchLedger_eq_some L _ _ _ _ _ heid
    exact ⟨rfl, rfl, x, hx, hm, hid⟩
  · intro hex
    obtain ⟨eid, heid⟩ := Option.ne_none_iff_exists'.mp
      (searchLedger_ne_none L _ _ _ _ hex)
    refine ⟨eid, heid, ?_, ?_⟩ <;>
      · unfold create_timesheet_if_needed
        rw [heid]
        simp [insertLine]

/-- Witness for C2 on a one-line ledger already holding the record: the
upsert with `recreate = False` leaves the ledger unchanged and reports
`created = False`. -/
theorem claim2_witness :
    (create_timesheet_if_needed
        ⟨[⟨10, "WhatsApp c (09:00-09:15) - a [WA[7/1]@5]", "2025-08-31", 1, 3, 4⟩], 11⟩
        ⟨"WhatsApp c (09:00-09:15) - a [WA[7/1]@5]", "2025-08-31", 1, 3, 4⟩
        "WA[7/1]@5" false).1 =
      ⟨[⟨10, "WhatsApp c (09:00-09:15) - a [WA[7/1]@5]", "2025-08-31", 1, 3, 4⟩], 11⟩ ∧
    (create_timesheet_if_needed
        ⟨[⟨10, "WhatsApp c (09:00-09:15) - a [WA[7/1]@5]", "2025-08-31", 1, 3, 4⟩], 11⟩
        ⟨"WhatsApp c (09:00-09:15) - a [WA[7/1]@5]", "2025-08-31", 1, 3, 4⟩
        "WA[7/1]@5" false).2.2 = false := by
  have h := (claim2_upsert
    ⟨[⟨10, "WhatsApp c (09:00-09:15) - a [WA[7/1]@5]", "2025-08-31", 1, 3, 4⟩], 11⟩
    ⟨"WhatsApp c (09:00-09:15) - a [WA[7/1]@5]", "2025-08-31", 1, 3, 4⟩
    "WA[7/1]@5").2.2.1 (by decide)
  exact ⟨h.1, h.2.1⟩

/-- C10: with `recreate = True` and several ledger records matching the
domain, the upsert unlinks only the single record the limit-1 search
selected: every other record survives (even matching duplicates), and
the ledger cannot shrink (at most one delete against one insert). The
distinct-id hypothesis is the database key invariant. -/
theorem claim10_recreate_deletes_one (L : Ledger) (v : LineVals) (s : String) (eid : ℕ)
    (hs : searchLedger L ("[" ++ s ++ "]") v.date v.project_id v.employee_id = some eid)
    (hnd : (L.lines.map (fun r => r.id)).Nodup) :
    (∀ m ∈ L.lines, m.id ≠ eid → m ∈ (create_timesheet_if_needed L v s true).1.lines) ∧
    L.lines.length ≤ (create_timesheet_if_needed L v s true).1.lines.length := by
  have hres : (create_timesheet_if_needed L v s true).1.lines =
      L.lines.filter (fun r => r.id != eid) ++ [newLine L.nextId v] := by
    unfold create_timesheet_if_needed
    rw [hs]
    rfl
  constructor
  · intro m hm hne
    rw [hres]
    apply List.mem_append_left
    exact List.mem_filter.mpr ⟨hm, by simpa using hne⟩
  · rw [hres, List.length_append]
    have hmain : ∀ ls : List AALine, (ls.map (fun r => r.id)).Nodup →
        ls.length ≤ (ls.filter (fun r => r.id != eid)).length + 1 := by
      intro ls
      induction ls with
      | nil => intro _; simp
      | cons a ls ih =>
        intro hnd2
        rw [List.map_cons, List.nodup_cons] at hnd2
        by_cases ha : a.id = eid
        · have hkeep : ls.filter (fun r => r.id != eid) = ls := by
            apply List.filter_eq_self.mpr
            intro r hr
            have : r.id ∈ ls.map (fun x => x.id) := List.mem_map_of_mem _ hr
            have hne : r.id ≠ eid := by
              intro heq
              apply hnd2.1
              rw [ha, ← heq]
              exact this
            simpa using hne
          rw [List.filter_cons_of_neg (by simp [ha]), hkeep]
          simp
        · rw [List.filter_cons_of_pos (by simp [ha])]
          have := ih hnd2.2
          simp only [List.length_cons]
          omega
    have := hmain L.lines hnd
    simp only [List.length_cons, List.length_nil]
    omega

/-- Witness for C10: two duplicate matching records (ids 10 and 20); the
search selects id 10, and the record with id 20 survives the recreate. -/
theorem claim10_witness :
    (⟨20, "WhatsApp c (09:00-09:15) - a [WA[7/1]@5]", "2025-08-31", 1, 3, 4⟩ : AALine) ∈
      (create_timesheet_if_needed
        ⟨[⟨10, "WhatsApp c (09:00-09:15) - a [WA[7/1]@5]", "2025-08-31", 1, 3, 4⟩,
          ⟨20, "WhatsApp c (09:00-09:15) - a [WA[7/1]@5]", "2025-08-31", 1, 3, 4⟩], 21⟩
        ⟨"WhatsApp c (09:00-09:15) - a [WA[7/1]@5]", "2025-08-31", 1, 3, 4⟩
        "WA[7/1]@5" true).1.lines ∧
    (2 : ℕ) ≤ (create_timesheet_if_needed
        ⟨[⟨10, "WhatsApp c (09:00-09:15) - a [WA[7/1]@5]", "2025-08-31", 1, 3, 4⟩,
          ⟨20, "WhatsApp c (09:00-09:15) - a [WA[7/1]@5]", "2025-08-31", 1, 3, 4⟩], 21⟩
        ⟨"WhatsApp c (09:00-09:15) - a [WA[7/1]@5]", "2025-08-31", 1, 3, 4⟩
        "WA[7/1]@5" true).1.lines.length := by
  have h := claim10_recreate_deletes_one
    ⟨[⟨10, "WhatsApp c (09:00-09:15) - a [WA[7/1]@5]", "2025-08-31", 1, 3, 4⟩,
      ⟨20, "WhatsApp c (09:00-09:15) - a [WA[7/1]@5]", "2025-08-31", 1, 3, 4⟩], 21⟩
    ⟨"WhatsApp c (09:00-09:15) - a [WA[7/1]@5]", "2025-08-31", 1, 3, 4⟩
    "WA[7/1]@5" 10 (by decide) (by decide)
  exact ⟨h.1 _ (by decide) (by decide), h.2⟩

/-- Failure behaviour of the external API calls: `createFails v` says the
`create` xmlrpc call for payload `v` raises, `unlinkFails eid` likewise
for `unlink`. -/
structure ApiEnv where
  createFails : LineVals → Bool
  unlinkFails : ℕ → Bool

/-- Fallible ledger `create` call. -/
def insertLineE (env : ApiEnv) (L : Ledger) (v : LineVals) : Except Unit (Ledger × ℕ) :=
  if env.createFails v then Except.error () else Except.ok (insertLine L v)

/-- Fallible ledger `unlink` call. -/
def unlinkLineE (env : ApiEnv) (L : Ledger) (eid : ℕ) : Except Unit Ledger :=
  if env.unlinkFails eid then Except.error ()
  else Except.ok { L with lines := L.lines.filter (fun r => r.id != eid) }

/-- The body of `create_timesheet_if_needed` with fallible external
calls: it contains no `try`/`except`, so an error in `unlink` or
`create` propagates to the caller. -/
def create_timesheet_if_neededE (env : ApiEnv) (L : Ledger) (line_vals : LineVals)
    (signature : String) (recreate : Bool) : Except Unit (Ledger × ℕ × Bool) :=
  match searchLedger L ("[" ++ signature ++ "]") line_vals.date line_vals.project_id
      line_vals.employee_id with
  | some eid =>
      if recreate then
        match unlinkLineE env L eid with
        | Except.error e => Except.error e
        | Except.ok L2 =>
            match insertLineE env L2 line_vals with
            | Except.error e => Except.error e
            | Except.ok ins => Except.ok (ins.1, ins.2, true)
      else Except.ok (L, eid, false)
  | none =>
      match insertLineE env L line_vals with
      | Except.error e => Except.error e
      | Except.ok ins => Except.ok (ins.1, ins.2, true)

/-- The upsert loop of `main` with fallible external calls: the `for`
body calls `create_timesheet_if_needed` with no surrounding `try`, so
the first raised exception leaves the loop and ends the run. -/
def runAllE (env : ApiEnv) (proj : ℕ) (recreate : Bool) :
    Ledger → List AttrRecord → Except Unit (Ledger × List (ℕ × Bool))
  | L, [] => Except.ok (L, [])
  | L, r :: rs =>
      match create_timesheet_if_neededE env L (mkLineVals proj r) (mkSignature r)
          recreate with
      | Except.error e => Except.error e
      | Except.ok step =>
          match runAllE env proj recreate step.1 rs with
          | Except.error e => Except.error e
          | Except.ok rest => Except.ok (rest.1, (step.2.1, step.2.2) :: rest.2)

/-- Counterexample to C7: two attribution records, the ledger `create`
call for the first one fails. Were failures caught per record, the run
would continue with the second record and return a result list; instead
the loop terminates with the error and the second record is never
processed (`isOk = false`). -/
theorem claim7_counterexample :
    (runAllE ⟨fun _ => true, fun _ => false⟩ 3 false ⟨[], 1⟩
      [⟨7, 1, 5, "c", "a", "09:00-09:15", "2025-08-31", 4, 1⟩,
       ⟨7, 1, 6, "c", "b", "09:00-09:15", "2025-08-31", 9, 1⟩]).isOk = false := by
  decide

/-- C7 as the code has it: a failing external call for one record is not
caught anywhere in the loop, so it aborts the whole run and none of the
remaining records is processed. -/
theorem claim7_amended_failure_aborts (env : ApiEnv) (proj : ℕ) (recreate : Bool)
    (L : Ledger) (r : AttrRecord) (e : Unit)
    (h : create_timesheet_if_neededE env L (mkLineVals proj r) (mkSignature r) recreate =
      Except.error e) :
    ∀ rs : List AttrRecord, runAllE env proj recreate L (r :: rs) = Except.error e := by
  intro rs
  unfold runAllE
  rw [h]

/-- Witness for the amended C7 at the counterexample's input. -/
theorem claim7_amended_witness :
    runAllE ⟨fun _ => true, fun _ => false⟩ 3 false ⟨[], 1⟩
      [⟨7, 1, 5, "c", "a", "09:00-09:15", "2025-08-31", 4, 1⟩,
       ⟨7, 1, 6, "c", "b", "09:00-09:15", "2025-08-31", 9, 1⟩] = Except.error () :=
  claim7_amended_failure_aborts ⟨fun _ => true, fun _ => false⟩ 3 false ⟨[], 1⟩
    ⟨7, 1, 5, "c", "a", "09:00-09:15", "2025-08-31", 4, 1⟩ () rfl
    [⟨7, 1, 6, "c", "b", "09:00-09:15", "2025-08-31", 9, 1⟩]

end WaTs
